import Mathlib

/-!
Verification of the E2E-Mailbox library (allynsweet/E2E-Mailbox).

The TypeScript sources are shallowly embedded: JavaScript strings are
modelled as `List Char`, `String.prototype.split` with a non-empty
separator as `jsSplit` (leftmost, non-overlapping matches),
`String.prototype.includes` as `containsSeq`, asynchronous network
collaborators as explicit environments (`Nat → ReqOutcome α`, listing
functions, …), values that may be `undefined` as `Option`, and thrown
exceptions as `Except`.
-/

namespace E2EMailbox

/-- Here `matchesAt pat s` is true when `pat` is a prefix of `s`
(character-by-character comparison, as JS does when scanning). -/
def matchesAt : List Char → List Char → Bool
  | [], _ => true
  | _ :: _, [] => false
  | c :: cs, d :: ds => c == d && matchesAt cs ds

/-- JS `s.includes(pat)`: `pat` occurs somewhere in `s`. -/
def containsSeq (pat : List Char) : List Char → Bool
  | [] => pat.isEmpty
  | s@(_ :: rest) => matchesAt pat s || containsSeq pat rest

/-- Here `noMatchBefore sep a t` scans `a ++ t` and asserts that no occurrence
of `sep` starts at a position inside `a`. -/
def noMatchBefore (sep : List Char) : List Char → List Char → Bool
  | [], _ => true
  | a@(_ :: arest), t => !matchesAt sep (a ++ t) && noMatchBefore sep arest t

/-- Fuel-driven worker for `jsSplit`; `acc` is the segment being built. -/
def jsSplitGo (sep : List Char) : Nat → List Char → List Char → List (List Char)
  | 0, acc, s => [acc ++ s]
  | fuel + 1, acc, s =>
    if !sep.isEmpty && matchesAt sep s then
      acc :: jsSplitGo sep fuel [] (s.drop sep.length)
    else
      match s with
      | [] => [acc]
      | c :: cs => jsSplitGo sep fuel (acc ++ [c]) cs

/-- JS `s.split(sep)` for a non-empty separator: split at the leftmost,
non-overlapping occurrences of `sep`. -/
def jsSplit (sep s : List Char) : List (List Char) :=
  jsSplitGo sep (s.length + 1) [] s

theorem matchesAt_nil_of_ne (sep : List Char) (h : sep ≠ []) :
    matchesAt sep [] = false := by
  cases sep with
  | nil => exact absurd rfl h
  | cons c cs => rfl

theorem matchesAt_append_self (sep t : List Char) :
    matchesAt sep (sep ++ t) = true := by
  induction sep with
  | nil => rfl
  | cons c cs ih => simp [matchesAt, ih]

theorem matchesAt_ne_nil (sep s : List Char) (hsep : sep ≠ [])
    (h : matchesAt sep s = true) : s ≠ [] := by
  intro hs
  subst hs
  rw [matchesAt_nil_of_ne sep hsep] at h
  exact Bool.false_ne_true h

/-- The result of `jsSplitGo` does not depend on the fuel, provided there
is enough of it. -/
theorem jsSplitGo_fuel (sep : List Char) :
    ∀ (n m : Nat) (acc s : List Char), s.length < n → s.length < m →
      jsSplitGo sep n acc s = jsSplitGo sep m acc s := by
  intro n
  induction n with
  | zero => intro m acc s hn; omega
  | succ n ih =>
    intro m acc s hn hm
    cases m with
    | zero => omega
    | succ m =>
      by_cases hcond : (!sep.isEmpty && matchesAt sep s) = true
      · have hsep : sep ≠ [] := by
          intro h; subst h; simp at hcond
        have hmat : matchesAt sep s = true := by
          have h' := hcond
          simp [Bool.and_eq_true] at h'
          exact h'.2
        have hs : s ≠ [] := matchesAt_ne_nil sep s hsep hmat
        have hslen : 1 ≤ s.length := by
          cases s with
          | nil => exact absurd rfl hs
          | cons c cs => simp
        have hseplen : 1 ≤ sep.length := by
          cases sep with
          | nil => exact absurd rfl hsep
          | cons c cs => simp
        have hdrop : (s.drop sep.length).length = s.length - sep.length := by
          simp
        simp only [jsSplitGo, hcond, if_true]
        congr 1
        exact ih m [] (s.drop sep.length) (by omega) (by omega)
      · simp only [jsSplitGo, hcond, if_false]
        cases s with
        | nil => rfl
        | cons c cs =>
          exact ih m (acc ++ [c]) cs (by simpa using hn) (by simpa using hm)

theorem jsSplitGo_nil (sep : List Char) (n : Nat) (acc : List Char) :
    jsSplitGo sep n acc [] = [acc] := by
  cases n with
  | zero => simp [jsSplitGo]
  | succ n =>
    have hcond : (!sep.isEmpty && matchesAt sep ([] : List Char)) = false := by
      cases sep with
      | nil => simp
      | cons c cs => simp [matchesAt]
    simp [jsSplitGo, hcond]

/-- Scanning past a region `a` that contains no occurrence of `sep`
moves it into the accumulator. -/
theorem jsSplitGo_skip (sep : List Char) (_hsep : sep ≠ []) :
    ∀ (a t acc : List Char) (n m : Nat),
      noMatchBefore sep a t = true → a.length + t.length < n → t.length < m →
      jsSplitGo sep n acc (a ++ t) = jsSplitGo sep m (acc ++ a) t := by
  intro a
  induction a with
  | nil =>
    intro t acc n m _ hn hm
    simpa using jsSplitGo_fuel sep n m acc t (by simpa using hn) hm
  | cons c a' ih =>
    intro t acc n m hnm hn hm
    cases n with
    | zero => omega
    | succ n =>
      have hmat : matchesAt sep ((c :: a') ++ t) = false := by
        have h' : (!matchesAt sep ((c :: a') ++ t) && noMatchBefore sep a' t) = true := hnm
        simp [Bool.and_eq_true] at h'
        exact h'.1
      have hmat' : matchesAt sep (c :: (a' ++ t)) = false := by simpa using hmat
      have hcond : (!sep.isEmpty && matchesAt sep (c :: (a' ++ t))) = false := by
        simp [hmat']
      have hnm' : noMatchBefore sep a' t = true := by
        have h' : (!matchesAt sep ((c :: a') ++ t) && noMatchBefore sep a' t) = true := hnm
        simp [Bool.and_eq_true] at h'
        exact h'.2
      have hn' : a'.length + t.length < n := by
        simp [List.length_cons] at hn
        omega
      have hstep : jsSplitGo sep (n + 1) acc ((c :: a') ++ t)
          = jsSplitGo sep n (acc ++ [c]) (a' ++ t) := by
        simp only [List.cons_append, jsSplitGo, hcond, Bool.false_eq_true, if_false]
      rw [hstep, ih t (acc ++ [c]) n m hnm' hn' hm]
      simp [List.append_assoc]

/-- Here `jsSplitGo` at an occurrence of the separator cuts the accumulated
segment. -/
theorem jsSplitGo_head (sep : List Char) (hsep : sep ≠ []) (b acc : List Char)
    (n m : Nat) (hm : b.length < m) (hn : sep.length + b.length < n) :
    jsSplitGo sep n acc (sep ++ b) = acc :: jsSplitGo sep m [] b := by
  cases n with
  | zero => omega
  | succ n =>
    have hcond : (!sep.isEmpty && matchesAt sep (sep ++ b)) = true := by
      cases sep with
      | nil => exact absurd rfl hsep
      | cons c cs => simp [matchesAt, matchesAt_append_self]
    have hseplen : 1 ≤ sep.length := by
      cases sep with
      | nil => exact absurd rfl hsep
      | cons c cs => simp
    simp only [jsSplitGo, hcond, if_true]
    congr 1
    · rw [List.drop_left]
      exact jsSplitGo_fuel sep n m [] b (by omega) hm

/-- Splitting a string with no occurrence of the separator returns the
whole string as the only segment. -/
theorem jsSplit_no_occurrence (sep s : List Char) (hsep : sep ≠ [])
    (h : noMatchBefore sep s [] = true) : jsSplit sep s = [s] := by
  unfold jsSplit
  have h1 : jsSplitGo sep (s.length + 1) [] (s ++ []) = jsSplitGo sep 1 ([] ++ s) [] :=
    jsSplitGo_skip sep hsep s [] [] (s.length + 1) 1 h (by simp) (by simp)
  simpa [jsSplitGo_nil] using h1

/-- Splitting `a ++ sep ++ b` when `sep` does not occur starting inside
`a` yields `a` followed by the splitting of `b`. -/
theorem jsSplit_append_sep (sep a b : List Char) (hsep : sep ≠ [])
    (h : noMatchBefore sep a (sep ++ b) = true) :
    jsSplit sep (a ++ (sep ++ b)) = a :: jsSplit sep b := by
  unfold jsSplit
  have hseplen : 1 ≤ sep.length := by
    cases sep with
    | nil => exact absurd rfl hsep
    | cons c cs => simp
  have h1 := jsSplitGo_skip sep hsep a (sep ++ b) []
      ((a ++ (sep ++ b)).length + 1) ((sep ++ b).length + 1) h
      (by simp) (by omega)
  rw [h1]
  have h2 := jsSplitGo_head sep hsep b ([] ++ a) ((sep ++ b).length + 1)
      (b.length + 1) (by omega) (by simp)
  simpa using h2

/-- For a single-character separator, the first segment produced by
`jsSplitGo` is the accumulator followed by the characters up to the
first occurrence of that character. -/
theorem jsSplitGo_headD_singleton (q : Char) :
    ∀ (s acc : List Char) (n : Nat), s.length < n →
      (jsSplitGo [q] n acc s).headD [] = acc ++ s.takeWhile (fun c => !(c == q)) := by
  intro s
  induction s with
  | nil =>
    intro acc n _
    simp [jsSplitGo_nil]
  | cons c s' ih =>
    intro acc n hn
    cases n with
    | zero => omega
    | succ n =>
      by_cases hc : c = q
      · subst hc
        have hm2 : matchesAt [c] (c :: s') = true := by simp [matchesAt]
        simp [jsSplitGo, hm2, List.takeWhile]
      · have hcq : (c == q) = false := by
          exact beq_eq_false_iff_ne.mpr hc
        have hqc : (q == c) = false := by
          exact beq_eq_false_iff_ne.mpr (Ne.symm hc)
        have hcond : (!([q] : List Char).isEmpty && matchesAt [q] (c :: s')) = false := by
          simp [matchesAt, hqc]
        have hstep : jsSplitGo [q] (n + 1) acc (c :: s')
            = jsSplitGo [q] n (acc ++ [c]) s' := by
          simp only [jsSplitGo, hcond, Bool.false_eq_true, if_false]
        rw [hstep, ih (acc ++ [c]) n (by simp at hn; omega)]
        simp [List.takeWhile, hcq, List.append_assoc]

/-- First segment of a split at a single character, as `takeWhile`. -/
theorem jsSplit_headD_singleton (q : Char) (s : List Char) :
    (jsSplit [q] s).headD [] = s.takeWhile (fun c => !(c == q)) := by
  unfold jsSplit
  simpa using jsSplitGo_headD_singleton q s [] (s.length + 1) (by omega)

/-- A region containing no occurrence of a character allows no match of
the corresponding one-character separator. -/
theorem noMatchBefore_singleton_of_not_mem (q : Char) (a t : List Char)
    (h : q ∉ a) : noMatchBefore [q] a t = true := by
  induction a with
  | nil => rfl
  | cons c a' ih =>
    have hqc : (q == c) = false := by
      exact beq_eq_false_iff_ne.mpr fun he => h (he ▸ List.mem_cons_self c a')
    have ih' := ih (fun hm => h (List.mem_cons_of_mem c hm))
    simp [noMatchBefore, matchesAt, hqc, ih']

/-- Here `take n` ignores a right factor when the left one is long enough. -/
theorem take_append_left (u v : List Char) (n : Nat) (h : n ≤ u.length) :
    (u ++ v).take n = u.take n := by
  induction u generalizing n with
  | nil =>
    cases n with
    | zero => simp
    | succ n => simp at h
  | cons c u' ih =>
    cases n with
    | zero => simp
    | succ n => simp [ih n (by simpa using h)]

/-! ## The normalized mail record (`EmailResponse` in `src/types.ts`) -/

structure EmailResponse where
  mail_id : List Char
  mail_from : List Char
  mail_timestamp : List Char
  mail_subject : List Char
  mail_excerpt : List Char
  mail_body : List Char
deriving DecidableEq

/-! ## `IntegrationMailbox.extractLinksFromEmail` (`src/index.ts`) -/

/-- The literal scanned for by `extractLinksFromEmail`. -/
def hrefMarker : List Char := "href=\"".data

/-- A one-character separator for the closing double quote. -/
def qStr : List Char := ['"']

def httpStr : List Char := "http".data

def wwwStr : List Char := "www.".data

/-- The filter applied to each segment of the split body:
`emailBodyLine.substring(0, 4) === 'http' || … === 'www.'`. -/
def passes4 (l : List Char) : Bool :=
  l.take 4 == httpStr || l.take 4 == wwwStr

/-- Here `extractLinksFromEmail`: split the body on `href="`, keep the
segments starting with `http` or `www.`, and cut each at its first
double quote (`splitUrl.split('"')[0]`). -/
def extractLinksFromEmail (email : EmailResponse) : List (List Char) :=
  let splitEmailBody := jsSplit hrefMarker email.mail_body
  let urlElements := splitEmailBody.filter passes4
  urlElements.map (fun splitUrl => (jsSplit qStr splitUrl).headD [])

/-- A body made of glue text and well-formed anchors:
`anchorsBody g0 [(u1, g1), (u2, g2)]` is
`g0 ++ href=" ++ u1 ++ " ++ g1 ++ href=" ++ u2 ++ " ++ g2`. -/
def anchorsBody : List Char → List (List Char × List Char) → List Char
  | g0, [] => g0
  | g0, (u, g) :: rest => g0 ++ hrefMarker ++ u ++ qStr ++ anchorsBody g rest

/-- The segment to the right of each marker occurrence in `anchorsBody`. -/
def segsOf : List (List Char × List Char) → List (List Char)
  | [] => []
  | (u, g) :: rest => (u ++ qStr ++ g) :: segsOf rest

/-- No occurrence of the marker starts inside a glue region (this also
rules out occurrences straddling a glue/marker boundary). -/
def goodGlue : List Char → List (List Char × List Char) → Bool
  | g0, [] => noMatchBefore hrefMarker g0 []
  | g0, (u, g) :: rest =>
      noMatchBefore hrefMarker g0 (hrefMarker ++ (u ++ qStr ++ anchorsBody g rest))
      && goodGlue (u ++ qStr ++ g) rest

theorem anchorsBody_shift (u g : List Char) (rest : List (List Char × List Char)) :
    u ++ (qStr ++ anchorsBody g rest) = anchorsBody (u ++ qStr ++ g) rest := by
  cases rest with
  | nil => simp [anchorsBody, List.append_assoc]
  | cons p r =>
    obtain ⟨u2, g2⟩ := p
    simp [anchorsBody, List.append_assoc]

theorem jsSplit_anchorsBody :
    ∀ (pairs : List (List Char × List Char)) (g0 : List Char),
      goodGlue g0 pairs = true →
      jsSplit hrefMarker (anchorsBody g0 pairs) = g0 :: segsOf pairs := by
  intro pairs
  induction pairs with
  | nil =>
    intro g0 h
    exact jsSplit_no_occurrence hrefMarker g0 (by decide) h
  | cons p rest ih =>
    obtain ⟨u, g⟩ := p
    intro g0 h
    have h' : (noMatchBefore hrefMarker g0
        (hrefMarker ++ (u ++ qStr ++ anchorsBody g rest))
        && goodGlue (u ++ qStr ++ g) rest) = true := h
    simp only [Bool.and_eq_true] at h'
    have hbody : anchorsBody g0 ((u, g) :: rest)
        = g0 ++ (hrefMarker ++ (u ++ (qStr ++ anchorsBody g rest))) := by
      simp [anchorsBody]
    rw [hbody]
    rw [jsSplit_append_sep hrefMarker g0 (u ++ (qStr ++ anchorsBody g rest))
      (by decide) (by simpa [List.append_assoc] using h'.1)]
    rw [anchorsBody_shift u g rest, ih (u ++ qStr ++ g) h'.2]
    rfl

theorem passes4_length (u : List Char) (h : passes4 u = true) : 4 ≤ u.length := by
  have h' : u.take 4 = httpStr ∨ u.take 4 = wwwStr := by
    simpa [passes4] using h
  have hlen : (u.take 4).length = 4 := by
    rcases h' with h' | h' <;> rw [h'] <;> rfl
  simp [List.length_take] at hlen
  omega

theorem passes4_append (u v : List Char) (h : passes4 u = true) :
    passes4 (u ++ v) = true := by
  have h4 := passes4_length u h
  unfold passes4 at h ⊢
  rw [take_append_left u v 4 h4]
  exact h

theorem segsOf_extract :
    ∀ pairs : List (List Char × List Char),
      (∀ p ∈ pairs, passes4 p.1 = true ∧ ('"' : Char) ∉ p.1) →
      ((segsOf pairs).filter passes4).map (fun splitUrl => (jsSplit qStr splitUrl).headD [])
        = pairs.map Prod.fst := by
  intro pairs
  induction pairs with
  | nil => intro _; rfl
  | cons p rest ih =>
    obtain ⟨u, g⟩ := p
    intro h
    have hu : passes4 u = true ∧ ('"' : Char) ∉ u := h (u, g) (List.mem_cons_self _ _)
    have hpass : passes4 (u ++ qStr ++ g) = true := by
      have := passes4_append u (qStr ++ g) hu.1
      simpa [List.append_assoc] using this
    have hcut : (jsSplit qStr (u ++ qStr ++ g)).headD [] = u := by
      have hnm : noMatchBefore qStr u (qStr ++ g) = true :=
        noMatchBefore_singleton_of_not_mem '"' u (qStr ++ g) hu.2
      have := jsSplit_append_sep qStr u g (by decide) hnm
      rw [List.append_assoc]
      rw [this]
      rfl
    have ih' := ih (fun p hp => h p (List.mem_cons_of_mem _ hp))
    simp only [segsOf, List.filter_cons, hpass, if_true, List.map_cons, hcut, ih']

/-- C4 (amended): `extractLinksFromEmail` returns, in encounter order and
with duplicates preserved, every segment of the body split at the
occurrences of `href="` — the leading segment included — whose first four
characters are `http` or `www.`, cut at the segment's first double quote.
In particular a body made of N well-formed anchors yields exactly its N
URLs in document order, and a body with no `href="` occurrence that does
not itself begin with `http` or `www.` yields the empty sequence. -/
theorem extractLinksFromEmail_characterization :
    (∀ (e : EmailResponse) (g0 : List Char) (pairs : List (List Char × List Char)),
        e.mail_body = anchorsBody g0 pairs →
        goodGlue g0 pairs = true →
        passes4 g0 = false →
        (∀ p ∈ pairs, passes4 p.1 = true ∧ ('"' : Char) ∉ p.1) →
        extractLinksFromEmail e = pairs.map Prod.fst)
    ∧ (∀ e : EmailResponse,
        noMatchBefore hrefMarker e.mail_body [] = true →
        passes4 e.mail_body = false →
        extractLinksFromEmail e = []) := by
  constructor
  · intro e g0 pairs hbody hglue hg0 hurl
    unfold extractLinksFromEmail
    rw [hbody, jsSplit_anchorsBody pairs g0 hglue]
    simp only [List.filter_cons, hg0, Bool.false_eq_true, if_false]
    exact segsOf_extract pairs hurl
  · intro e h1 h2
    unfold extractLinksFromEmail
    rw [jsSplit_no_occurrence hrefMarker e.mail_body (by decide) h1]
    simp [List.filter_cons, h2]

def g0W : List Char := "<p>Hello ".data

def pairsW : List (List Char × List Char) :=
  [("https://example.com".data, " /> and ".data), ("www.example.org".data, " />".data)]

/-- Witness for C4: a concrete two-anchor body yields its two URLs, and a
concrete link-free body yields the empty list. -/
theorem extractLinksFromEmail_characterization_witness :
    extractLinksFromEmail ⟨[], [], [], [], [], anchorsBody g0W pairsW⟩
        = ["https://example.com".data, "www.example.org".data] ∧
    extractLinksFromEmail ⟨[], [], [], [], [], "no links here".data⟩ = [] := by
  constructor
  · exact extractLinksFromEmail_characterization.1 _ g0W pairsW rfl
      (by decide) (by decide) (by decide)
  · exact extractLinksFromEmail_characterization.2 _ (by decide) (by decide)

/-- Counterexample to C4 as stated: the body `http` contains no `href="`
attribute at all, yet the returned sequence is not empty. -/
theorem extractLinks_no_href_counterexample :
    containsSeq hrefMarker "http".data = false ∧
    extractLinksFromEmail ⟨[], [], [], [], [], "http".data⟩ = ["http".data] := by
  decide

/-- C10 (amended): on a body containing no occurrence of `href="` whose
first four characters are `http` or `www.`, the extractor returns exactly
the prefix of the body up to its first double quote. -/
theorem extractLinks_leadingText (e : EmailResponse)
    (h1 : noMatchBefore hrefMarker e.mail_body [] = true)
    (h2 : passes4 e.mail_body = true) :
    extractLinksFromEmail e
      = [e.mail_body.takeWhile (fun c => !(c == '"'))] := by
  unfold extractLinksFromEmail
  rw [jsSplit_no_occurrence hrefMarker e.mail_body (by decide) h1]
  simp [List.filter_cons, h2, qStr]
  simpa using jsSplit_headD_singleton '"' e.mail_body

/-- Witness for C10 at a concrete link-free body starting with `http`. -/
theorem extractLinks_leadingText_witness :
    extractLinksFromEmail ⟨[], [], [], [], [], "http://a.io\" trailing".data⟩
      = ["http://a.io".data] := by
  rw [extractLinks_leadingText ⟨[], [], [], [], [], "http://a.io\" trailing".data⟩
    (by decide) (by decide)]
  decide

/-- Counterexample to C10 as stated: when an `href="` occurrence starts
before the body's first double quote, the prefix of the body up to that
quote is not among the returned URLs. -/
theorem extractLinks_leadingText_counterexample :
    passes4 "httphref=\"x\"".data = true ∧
    "httphref=\"x\"".data.takeWhile (fun c => !(c == '"'))
      ∉ extractLinksFromEmail ⟨[], [], [], [], [], "httphref=\"x\"".data⟩ := by
  decide

/-! ## `IntegrationMailbox.waitForEmail` (`src/index.ts`)

The network collaborators are an environment: `listings k` is the email
list returned by the `k`-th `fetchEmailList` call inside the loop, and
`fetchById` is the adapter's `fetchEmailById` (which may yield
`undefined`). -/

structure WaitEnv where
  listings : Nat → List EmailResponse
  fetchById : List Char → Option EmailResponse

/-- The poll interval of the current implementation (7.5 seconds). -/
def INCREMENT : Nat := 7500

/-- The `emails.forEach` body: every matching email overwrites
`foundEmail`, so the last match in list order survives. -/
def findArrived (subjectLine : List Char) (emails : List EmailResponse) :
    Option EmailResponse :=
  emails.foldl
    (fun foundEmail email =>
      if containsSeq subjectLine email.mail_subject then some email else foundEmail)
    none

/-- One `while` loop of `waitForEmail`, with explicit fuel. The state is
`(elapsedTime, k)` where `k` counts the `fetchEmailList` calls made so
far; the result records the found email (if any), the final
`elapsedTime`, and the final count of listing calls. -/
def waitLoopGo (env : WaitEnv) (subjectLine : List Char) (maxLimitInMs : Nat) :
    Nat → Nat → Nat → Option EmailResponse × Nat × Nat
  | 0, elapsedTime, k => (none, elapsedTime, k)
  | fuel + 1, elapsedTime, k =>
    if elapsedTime < maxLimitInMs then
      match findArrived subjectLine (env.listings k) with
      | some e => (some e, elapsedTime, k + 1)
      | none => waitLoopGo env subjectLine maxLimitInMs fuel (elapsedTime + INCREMENT) (k + 1)
    else (none, elapsedTime, k)

structure WaitResult where
  result : Option EmailResponse
  elapsedTime : Nat
  listCalls : Nat
  fetches : List (List Char)
deriving DecidableEq

/-- Here `waitForEmail(subjectLine, maxLimitInSec = 60)`: poll the inbox every
`INCREMENT` milliseconds until a matching subject arrives or the elapsed
time reaches `maxLimitInSec * 1000`; on a match, fetch the full email by
id. `fetches` records the ids passed to `fetchEmailById`. -/
def waitForEmail (env : WaitEnv) (subjectLine : List Char)
    (maxLimitInSec : Nat := 60) : WaitResult :=
  let maxLimitInMs := maxLimitInSec * 1000
  let out := waitLoopGo env subjectLine maxLimitInMs (maxLimitInMs / INCREMENT + 1) 0 0
  match out.1 with
  | some foundEmail =>
      { result := env.fetchById foundEmail.mail_id, elapsedTime := out.2.1,
        listCalls := out.2.2, fetches := [foundEmail.mail_id] }
  | none =>
      { result := none, elapsedTime := out.2.1, listCalls := out.2.2, fetches := [] }

theorem findArrived_eq_none (subjectLine : List Char) (emails : List EmailResponse)
    (h : ∀ e ∈ emails, containsSeq subjectLine e.mail_subject = false) :
    findArrived subjectLine emails = none := by
  unfold findArrived
  induction emails with
  | nil => rfl
  | cons e rest ih =>
    rw [List.foldl_cons]
    have he := h e (List.mem_cons_self _ _)
    rw [he]
    simp only [Bool.false_eq_true, if_false]
    exact ih (fun x hx => h x (List.mem_cons_of_mem _ hx))

theorem foldl_last_match (p : EmailResponse → Bool) :
    ∀ (l : List EmailResponse) (init : Option EmailResponse),
      l.foldl (fun acc e => if p e then some e else acc) init
        = match (l.reverse).find? p with
          | some x => some x
          | none => init := by
  intro l
  induction l with
  | nil => intro init; rfl
  | cons e rest ih =>
    intro init
    rw [List.foldl_cons, ih]
    have happ : ((e :: rest).reverse).find? p
        = match (rest.reverse).find? p with
          | some x => some x
          | none => [e].find? p := by
      rw [List.reverse_cons]
      induction rest.reverse with
      | nil => simp
      | cons a t iht =>
        rw [List.cons_append, List.find?_cons, List.find?_cons]
        cases hpa : p a <;> simp [iht]
    rw [happ]
    cases hfind : (rest.reverse).find? p with
    | some x => rfl
    | none =>
      rw [List.find?_cons]
      cases hpe : p e <;> simp [List.find?_nil]

/-- Here `findArrived` selects the last matching email in list order. -/
theorem findArrived_eq_last_match (subjectLine : List Char)
    (emails : List EmailResponse) :
    findArrived subjectLine emails
      = (emails.reverse).find? (fun e => containsSeq subjectLine e.mail_subject) := by
  unfold findArrived
  rw [foldl_last_match (fun e => containsSeq subjectLine e.mail_subject) emails none]
  cases h : (emails.reverse).find? (fun e => containsSeq subjectLine e.mail_subject) <;> rfl

/-- When no listing ever matches, the loop exhausts the time budget:
it performs some number `m` of listing calls, sleeps `INCREMENT` after
each, and stops as soon as the accumulated time reaches the limit. -/
theorem waitLoopGo_timeout (env : WaitEnv) (subjectLine : List Char)
    (maxLimitInMs : Nat)
    (hall : ∀ j, findArrived subjectLine (env.listings j) = none) :
    ∀ (fuel elapsed k : Nat), maxLimitInMs ≤ elapsed + INCREMENT * fuel →
      ∃ m, m ≤ fuel ∧
        waitLoopGo env subjectLine maxLimitInMs fuel elapsed k
          = (none, elapsed + INCREMENT * m, k + m) ∧
        maxLimitInMs ≤ elapsed + INCREMENT * m ∧
        (m = 0 ∨ elapsed + INCREMENT * (m - 1) < maxLimitInMs) := by
  intro fuel
  induction fuel with
  | zero =>
    intro elapsed k h
    exact ⟨0, Nat.le_refl 0, by simp [waitLoopGo], by simpa using h, Or.inl rfl⟩
  | succ fuel ih =>
    intro elapsed k h
    by_cases hlt : elapsed < maxLimitInMs
    · have hstep : waitLoopGo env subjectLine maxLimitInMs (fuel + 1) elapsed k
          = waitLoopGo env subjectLine maxLimitInMs fuel (elapsed + INCREMENT) (k + 1) := by
        simp [waitLoopGo, hlt, hall k]
      obtain ⟨m, hm, heq, hge, hlast⟩ := ih (elapsed + INCREMENT) (k + 1)
        (by rw [Nat.mul_succ] at h; omega)
      refine ⟨m + 1, by omega, ?_, by rw [Nat.mul_succ]; omega, ?_⟩
      · rw [hstep, heq]
        have e1 : elapsed + INCREMENT + INCREMENT * m = elapsed + INCREMENT * (m + 1) := by
          rw [Nat.mul_succ]; omega
        have e2 : k + 1 + m = k + (m + 1) := by omega
        rw [e1, e2]
      · right
        simp only [Nat.add_sub_cancel]
        rcases hlast with h0 | hlast
        · subst h0
          simpa using hlt
        · cases m with
          | zero => simpa using hlt
          | succ m' =>
            have h2 : elapsed + INCREMENT + INCREMENT * m' < maxLimitInMs := by
              simpa using hlast
            have h3 : INCREMENT * (m' + 1) = INCREMENT * m' + INCREMENT := Nat.mul_succ _ _
            omega
    · refine ⟨0, Nat.zero_le _, ?_, by simp only [Nat.mul_zero]; omega, Or.inl rfl⟩
      simp [waitLoopGo, hlt]

/-- When the first `t` listings contain no match and listing `t` does,
the loop stops at iteration `t` with the found email, having slept
`INCREMENT` milliseconds `t` times and listed `t + 1` times. -/
theorem waitLoopGo_found (env : WaitEnv) (subjectLine : List Char)
    (maxLimitInMs : Nat) (e : EmailResponse) :
    ∀ (t fuel elapsed k : Nat),
      (∀ j, j < t → findArrived subjectLine (env.listings (k + j)) = none) →
      findArrived subjectLine (env.listings (k + t)) = some e →
      elapsed + INCREMENT * t < maxLimitInMs →
      t < fuel →
      waitLoopGo env subjectLine maxLimitInMs fuel elapsed k
        = (some e, elapsed + INCREMENT * t, k + t + 1) := by
  intro t
  induction t with
  | zero =>
    intro fuel elapsed k _ hfound hlt hfuel
    cases fuel with
    | zero => omega
    | succ fuel =>
      have hlt' : elapsed < maxLimitInMs := by simpa using hlt
      have hfound' : findArrived subjectLine (env.listings k) = some e := by
        simpa using hfound
      simp [waitLoopGo, hlt', hfound']
  | succ t ih =>
    intro fuel elapsed k hnone hfound hlt hfuel
    cases fuel with
    | zero => omega
    | succ fuel =>
      have hmul : INCREMENT * (t + 1) = INCREMENT * t + INCREMENT := Nat.mul_succ _ _
      have hlt0 : elapsed < maxLimitInMs := by omega
      have hnone0 : findArrived subjectLine (env.listings k) = none := by
        have := hnone 0 (Nat.succ_pos t)
        simpa using this
      have hnone' : ∀ j, j < t → findArrived subjectLine (env.listings (k + 1 + j)) = none := by
        intro j hj
        have := hnone (j + 1) (by omega)
        have hidx : k + (j + 1) = k + 1 + j := by omega
        rwa [hidx] at this
      have hfound' : findArrived subjectLine (env.listings (k + 1 + t)) = some e := by
        have hidx : k + (t + 1) = k + 1 + t := by omega
        rwa [hidx] at hfound
      have hstep : waitLoopGo env subjectLine maxLimitInMs (fuel + 1) elapsed k
          = waitLoopGo env subjectLine maxLimitInMs fuel (elapsed + INCREMENT) (k + 1) := by
        simp [waitLoopGo, hlt0, hnone0]
      rw [hstep, ih fuel (elapsed + INCREMENT) (k + 1) hnone' hfound' (by omega) (by omega)]
      have e1 : elapsed + INCREMENT + INCREMENT * t = elapsed + INCREMENT * (t + 1) := by
        omega
      have e2 : k + 1 + t + 1 = k + (t + 1) + 1 := by omega
      rw [e1, e2]

/-- Here `waitForEmail` when the match arrives in listing `t`, inside the time
budget: the found email's id is fetched and the elapsed time is
`INCREMENT * t`. -/
theorem waitForEmail_found_eq (env : WaitEnv) (subjectLine : List Char)
    (maxLimitInSec t : Nat) (e : EmailResponse)
    (hnone : ∀ j, j < t → findArrived subjectLine (env.listings j) = none)
    (hfound : findArrived subjectLine (env.listings t) = some e)
    (hlt : INCREMENT * t < maxLimitInSec * 1000) :
    waitForEmail env subjectLine maxLimitInSec
      = { result := env.fetchById e.mail_id, elapsedTime := INCREMENT * t,
          listCalls := t + 1, fetches := [e.mail_id] } := by
  have hinc : 0 < INCREMENT := by decide
  have ht : t ≤ maxLimitInSec * 1000 / INCREMENT := by
    rw [Nat.le_div_iff_mul_le hinc]
    have hc : INCREMENT * t = t * INCREMENT := Nat.mul_comm _ _
    omega
  have hloop := waitLoopGo_found env subjectLine (maxLimitInSec * 1000) e t
      (maxLimitInSec * 1000 / INCREMENT + 1) 0 0
      (by intro j hj; simpa using hnone j hj) (by simpa using hfound)
      (by simpa using hlt) (by omega)
  unfold waitForEmail
  simp [hloop]

/-- C1 (amended): when no listed message ever has a subject containing
the searched string, `waitForEmail` sleeps a fixed `INCREMENT` after each
listing, accumulates it into the elapsed time, and returns `undefined`
(no exception) as soon as the elapsed time reaches
`maxLimitInSec * 1000`; when some listing during the wait contains a
matching message, it returns the value of `fetchEmailById` applied to
the selected message's id — which is defined exactly when that fetch
succeeds. -/
theorem waitForEmail_spec :
    (∀ (env : WaitEnv) (subjectLine : List Char) (maxLimitInSec : Nat),
      (∀ k e, e ∈ env.listings k → containsSeq subjectLine e.mail_subject = false) →
      (waitForEmail env subjectLine maxLimitInSec).result = none ∧
      (waitForEmail env subjectLine maxLimitInSec).fetches = [] ∧
      (waitForEmail env subjectLine maxLimitInSec).elapsedTime
        = INCREMENT * (waitForEmail env subjectLine maxLimitInSec).listCalls ∧
      maxLimitInSec * 1000 ≤ (waitForEmail env subjectLine maxLimitInSec).elapsedTime ∧
      (waitForEmail env subjectLine maxLimitInSec).elapsedTime
        < maxLimitInSec * 1000 + INCREMENT)
    ∧ (∀ (env : WaitEnv) (subjectLine : List Char) (maxLimitInSec t : Nat)
        (e : EmailResponse),
      (∀ j, j < t → findArrived subjectLine (env.listings j) = none) →
      findArrived subjectLine (env.listings t) = some e →
      INCREMENT * t < maxLimitInSec * 1000 →
      (waitForEmail env subjectLine maxLimitInSec).result = env.fetchById e.mail_id) := by
  constructor
  · intro env subjectLine maxLimitInSec hquiet
    have hinc : 0 < INCREMENT := by decide
    have hall : ∀ j, findArrived subjectLine (env.listings j) = none :=
      fun j => findArrived_eq_none subjectLine (env.listings j) (hquiet j)
    have hdm := Nat.div_add_mod (maxLimitInSec * 1000) INCREMENT
    have hmod : maxLimitInSec * 1000 % INCREMENT < INCREMENT :=
      Nat.mod_lt _ hinc
    have hms : INCREMENT * (maxLimitInSec * 1000 / INCREMENT + 1)
        = INCREMENT * (maxLimitInSec * 1000 / INCREMENT) + INCREMENT := by
      rw [Nat.mul_add, Nat.mul_one]
    obtain ⟨m, hm, heq, hge, hlast⟩ := waitLoopGo_timeout env subjectLine
      (maxLimitInSec * 1000) hall (maxLimitInSec * 1000 / INCREMENT + 1) 0 0
      (by omega)
    have hw : waitForEmail env subjectLine maxLimitInSec
        = { result := none, elapsedTime := INCREMENT * m, listCalls := m,
            fetches := [] } := by
      unfold waitForEmail
      simp [heq]
    refine ⟨by rw [hw], by rw [hw], by rw [hw], by rw [hw]; simpa using hge, ?_⟩
    rw [hw]
    show INCREMENT * m < maxLimitInSec * 1000 + INCREMENT
    rcases hlast with h0 | hlast
    · subst h0
      omega
    · cases m with
      | zero => omega
      | succ m' =>
        have h2 : INCREMENT * m' < maxLimitInSec * 1000 := by simpa using hlast
        have h3 : INCREMENT * (m' + 1) = INCREMENT * m' + INCREMENT := Nat.mul_succ _ _
        omega
  · intro env subjectLine maxLimitInSec t e hnone hfound hlt
    rw [waitForEmail_found_eq env subjectLine maxLimitInSec t e hnone hfound hlt]

def emailW : EmailResponse :=
  { mail_id := "1".data, mail_from := [], mail_timestamp := [],
    mail_subject := "Welcome aboard".data, mail_excerpt := [], mail_body := [] }

def envQuiet : WaitEnv :=
  { listings := fun _ => [], fetchById := fun _ => none }

def envFound : WaitEnv :=
  { listings := fun _ => [emailW],
    fetchById := fun i =>
      some { mail_id := i, mail_from := [], mail_timestamp := [],
             mail_subject := "Welcome aboard".data, mail_excerpt := [],
             mail_body := "full body".data } }

/-- Witness for C1 at concrete environments: an inbox that never matches
times out with `undefined`, and an inbox matching at once returns the
fetch-by-id result. -/
theorem waitForEmail_spec_witness :
    (waitForEmail envQuiet "Welcome".data 60).result = none ∧
    (waitForEmail envFound "Welcome".data 60).result
      = envFound.fetchById emailW.mail_id := by
  constructor
  · exact (waitForEmail_spec.1 envQuiet "Welcome".data 60
      (by intro k e h; cases h)).1
  · exact waitForEmail_spec.2 envFound "Welcome".data 60 0 emailW
      (by intro j hj; omega) (by decide) (by decide)

def envNoFetch : WaitEnv :=
  { listings := fun _ => [emailW], fetchById := fun _ => none }

/-- Counterexample to C1 as stated: a matching message appears in the
very first listing, yet `waitForEmail` returns `undefined` because the
follow-up `fetchEmailById` yields no email. -/
theorem waitForEmail_defined_counterexample :
    emailW ∈ envNoFetch.listings 0 ∧
    containsSeq "Welcome".data emailW.mail_subject = true ∧
    (waitForEmail envNoFetch "Welcome".data 60).result = none := by
  decide

/-- C2 (amended): inside a listing that ends the wait, the message
selected for the follow-up fetch is the LAST matching message in list
order (each match overwrites the previous one in the `forEach`), and
exactly one `fetchEmailById` call is issued, for that message's id. -/
theorem waitForEmail_selects_last_match :
    (∀ (subjectLine : List Char) (emails : List EmailResponse),
      findArrived subjectLine emails
        = (emails.reverse).find? (fun e => containsSeq subjectLine e.mail_subject))
    ∧ (∀ (env : WaitEnv) (subjectLine : List Char) (maxLimitInSec t : Nat)
        (e : EmailResponse),
      (∀ j, j < t → findArrived subjectLine (env.listings j) = none) →
      ((env.listings t).reverse).find? (fun x => containsSeq subjectLine x.mail_subject)
        = some e →
      INCREMENT * t < maxLimitInSec * 1000 →
      (waitForEmail env subjectLine maxLimitInSec).fetches = [e.mail_id]) := by
  constructor
  · exact findArrived_eq_last_match
  · intro env subjectLine maxLimitInSec t e hnone hfound hlt
    have hfound' : findArrived subjectLine (env.listings t) = some e := by
      rw [findArrived_eq_last_match]
      exact hfound
    rw [waitForEmail_found_eq env subjectLine maxLimitInSec t e hnone hfound' hlt]

/-- Witness for C2 at a concrete environment. -/
theorem waitForEmail_selects_last_match_witness :
    (waitForEmail envFound "Welcome".data 60).fetches = [emailW.mail_id] := by
  exact waitForEmail_selects_last_match.2 envFound "Welcome".data 60 0 emailW
    (by intro j hj; omega) (by decide) (by decide)

def emailA : EmailResponse :=
  { mail_id := "1".data, mail_from := [], mail_timestamp := [],
    mail_subject := "a".data, mail_excerpt := [], mail_body := [] }

def emailB : EmailResponse :=
  { mail_id := "2".data, mail_from := [], mail_timestamp := [],
    mail_subject := "ab".data, mail_excerpt := [], mail_body := [] }

def envTwoMatches : WaitEnv :=
  { listings := fun _ => [emailA, emailB],
    fetchById := fun i =>
      some { mail_id := i, mail_from := [], mail_timestamp := [],
             mail_subject := [], mail_excerpt := [], mail_body := [] } }

/-- Counterexample to C2 as stated: with two matching messages in one
listing, the first match is `emailA` (id "1"), but the id passed to
`fetchEmailById` is "2" — the last match, not the first. -/
theorem waitForEmail_first_match_counterexample :
    (envTwoMatches.listings 0).find?
        (fun x => containsSeq "a".data x.mail_subject) = some emailA ∧
    (waitForEmail envTwoMatches "a".data 60).fetches = ["2".data] ∧
    emailA.mail_id ≠ "2".data := by
  decide

/-! ## The `IntegrationMailbox` facade (`src/index.ts`)

The facade holds a reference to the active `MailboxService`; the
constructor installs the adapter selected by `mailboxProvider`
(`'DEVELOPER'` by default). The guard
`if (!this.mailbox) { throw Error(noMailboxError); }` is modelled with
`Except`. -/

inductive MailboxProvider where
  | DEVELOPER
  | GUERRILLA
deriving DecidableEq

/-- Here `this.mailbox.PROVIDER === 'DEVELOPER' ? 'GUERRILLA' : 'DEVELOPER'`. -/
def otherProvider : MailboxProvider → MailboxProvider
  | .DEVELOPER => .GUERRILLA
  | .GUERRILLA => .DEVELOPER

/-- JS truthiness test `!email` for a possibly-undefined string. -/
def jsFalsyStr : Option (List Char) → Bool
  | none => true
  | some s => s.isEmpty

/-- Outcomes of the adapters' `createEmailAddress` calls. -/
structure CreateEnv where
  createResult : MailboxProvider → Option (List Char)

structure CreateOutcome where
  email : Option (List Char)
  active : MailboxProvider
  attempts : List MailboxProvider
deriving DecidableEq

/-- Facade `createEmailAddress`: call the active adapter; when the result
is falsy, switch `this.mailbox` to the opposite provider and try once
more. `attempts` records the adapters called, in order. -/
def createEmailAddress (env : CreateEnv) (active : MailboxProvider) : CreateOutcome :=
  let email := env.createResult active
  if jsFalsyStr email then
    let newMailbox := otherProvider active
    { email := env.createResult newMailbox, active := newMailbox,
      attempts := [active, newMailbox] }
  else
    { email := email, active := active, attempts := [active] }

/-- C3: the facade delegates to the active adapter; exactly when that
call reports failure (a falsy result) it swaps to the other provider and
retries once, so at most two adapter attempts happen; when both fail the
overall result is falsy ("no address available"), and any successful
result is the one produced by the adapter that is active afterwards. -/
theorem createEmailAddress_failover (env : CreateEnv) (active : MailboxProvider) :
    (jsFalsyStr (env.createResult active) = false →
      createEmailAddress env active
        = { email := env.createResult active, active := active, attempts := [active] }) ∧
    (jsFalsyStr (env.createResult active) = true →
      createEmailAddress env active
        = { email := env.createResult (otherProvider active),
            active := otherProvider active,
            attempts := [active, otherProvider active] }) ∧
    (createEmailAddress env active).attempts.length ≤ 2 ∧
    ((createEmailAddress env active).active = active
      ↔ jsFalsyStr (env.createResult active) = false) ∧
    (jsFalsyStr (env.createResult active) = true →
      jsFalsyStr (env.createResult (otherProvider active)) = true →
      jsFalsyStr (createEmailAddress env active).email = true) ∧
    (∀ addr, (createEmailAddress env active).email = some addr →
      env.createResult (createEmailAddress env active).active = some addr) := by
  have hother : otherProvider active ≠ active := by
    cases active <;> decide
  by_cases hf : jsFalsyStr (env.createResult active) = true
  · refine ⟨?_, ?_, ?_, ?_, ?_, ?_⟩
    · intro hc
      rw [hf] at hc
      cases hc
    · intro _
      simp [createEmailAddress, hf]
    · simp [createEmailAddress, hf]
    · constructor
      · intro hc
        simp [createEmailAddress, hf] at hc
        exact absurd hc hother
      · intro hc
        rw [hf] at hc
        cases hc
    · intro _ h2
      simp [createEmailAddress, hf, h2]
    · intro addr h
      simp [createEmailAddress, hf] at h ⊢
      exact h
  · have hf' : jsFalsyStr (env.createResult active) = false := by
      cases h : jsFalsyStr (env.createResult active)
      · rfl
      · exact absurd h hf
    refine ⟨?_, ?_, ?_, ?_, ?_, ?_⟩
    · intro _
      simp [createEmailAddress, hf']
    · intro hc
      rw [hf'] at hc
      cases hc
    · simp [createEmailAddress, hf']
    · constructor
      · intro _
        exact hf'
      · intro _
        simp [createEmailAddress, hf']
    · intro hc
      rw [hf'] at hc
      cases hc
    · intro addr h
      simp [createEmailAddress, hf'] at h ⊢
      exact h

def envFailover : CreateEnv :=
  { createResult := fun p =>
      match p with
      | .DEVELOPER => none
      | .GUERRILLA => some "user@guerrillamail.com".data }

/-- Witness for C3: DeveloperMail fails, so the facade fails over to
GuerrillaMail, attempts exactly those two adapters in order, and returns
the second adapter's address. -/
theorem createEmailAddress_failover_witness :
    createEmailAddress envFailover .DEVELOPER
      = { email := some "user@guerrillamail.com".data, active := .GUERRILLA,
          attempts := [.DEVELOPER, .GUERRILLA] } ∧
    (createEmailAddress envFailover .DEVELOPER).attempts.length ≤ 2 := by
  have h := createEmailAddress_failover envFailover .DEVELOPER
  exact ⟨h.2.1 (by decide), h.2.2.1⟩

/-! ## C5: facade operations before `createEmailAddress` -/

/-- The `noMailboxError` message thrown by the facade guards. -/
def noMailboxError : List Char :=
  "There is currently no mailbox set. Did you forget to call `createEmailAddress` first?".data

/-- Facade state: `this.mailbox`, the active adapter reference
(`undefined` is modelled as `none`). -/
structure Facade where
  mailbox : Option MailboxProvider
deriving DecidableEq

/-- The constructor: `this.mailbox = this.mailboxProviders[mailboxProvider]`
— the adapter reference is installed immediately. -/
def mkIntegrationMailbox (mailboxProvider : MailboxProvider := .DEVELOPER) : Facade :=
  { mailbox := some mailboxProvider }

/-- Behaviour of the delegated adapter operations, per provider. -/
structure AdapterEnv where
  fetchList : MailboxProvider → List EmailResponse
  fetchById : MailboxProvider → List Char → Option EmailResponse
  deleteById : MailboxProvider → List Char → Option Bool
  forgetAddr : MailboxProvider → List Char → Option Bool

def facadeFetchEmailList (env : AdapterEnv) (f : Facade) :
    Except (List Char) (List EmailResponse) :=
  match f.mailbox with
  | none => .error noMailboxError
  | some m => .ok (env.fetchList m)

def facadeFetchEmailById (env : AdapterEnv) (f : Facade) (emailId : List Char) :
    Except (List Char) (Option EmailResponse) :=
  match f.mailbox with
  | none => .error noMailboxError
  | some m => .ok (env.fetchById m emailId)

def facadeDeleteEmailById (env : AdapterEnv) (f : Facade) (emailId : List Char) :
    Except (List Char) (Option Bool) :=
  match f.mailbox with
  | none => .error noMailboxError
  | some m => .ok (env.deleteById m emailId)

def facadeForgetEmailAddress (env : AdapterEnv) (f : Facade) (emailAddress : List Char) :
    Except (List Char) (Option Bool) :=
  match f.mailbox with
  | none => .error noMailboxError
  | some m => .ok (env.forgetAddr m emailAddress)

def facadeWaitForEmail (_env : AdapterEnv) (wenv : WaitEnv) (f : Facade)
    (subjectLine : List Char) (maxLimitInSec : Nat := 60) :
    Except (List Char) WaitResult :=
  match f.mailbox with
  | none => .error noMailboxError
  | some _ => .ok (waitForEmail wenv subjectLine maxLimitInSec)

/-- C5 (amended): every delegated operation raises the `noMailboxError`
precondition error exactly when the facade's adapter reference is
`undefined`; the constructor always installs an adapter, so operations
invoked before `createEmailAddress` delegate to the constructor-selected
adapter instead of raising. -/
theorem facade_guard_spec :
    (∀ (env : AdapterEnv) (wenv : WaitEnv) (f : Facade)
        (emailId emailAddress subjectLine : List Char) (sec : Nat),
      f.mailbox = none →
      facadeFetchEmailList env f = .error noMailboxError ∧
      facadeFetchEmailById env f emailId = .error noMailboxError ∧
      facadeDeleteEmailById env f emailId = .error noMailboxError ∧
      facadeForgetEmailAddress env f emailAddress = .error noMailboxError ∧
      facadeWaitForEmail env wenv f subjectLine sec = .error noMailboxError)
    ∧ (∀ (env : AdapterEnv) (wenv : WaitEnv) (p : MailboxProvider)
        (emailId emailAddress subjectLine : List Char) (sec : Nat),
      facadeFetchEmailList env (mkIntegrationMailbox p) = .ok (env.fetchList p) ∧
      facadeFetchEmailById env (mkIntegrationMailbox p) emailId
        = .ok (env.fetchById p emailId) ∧
      facadeDeleteEmailById env (mkIntegrationMailbox p) emailId
        = .ok (env.deleteById p emailId) ∧
      facadeForgetEmailAddress env (mkIntegrationMailbox p) emailAddress
        = .ok (env.forgetAddr p emailAddress) ∧
      facadeWaitForEmail env wenv (mkIntegrationMailbox p) subjectLine sec
        = .ok (waitForEmail wenv subjectLine sec)) := by
  constructor
  · intro env wenv f emailId emailAddress subjectLine sec h
    refine ⟨?_, ?_, ?_, ?_, ?_⟩ <;>
      simp [facadeFetchEmailList, facadeFetchEmailById, facadeDeleteEmailById,
        facadeForgetEmailAddress, facadeWaitForEmail, h]
  · intro env wenv p emailId emailAddress subjectLine sec
    refine ⟨rfl, rfl, rfl, rfl, rfl⟩

def envAdapterEmpty : AdapterEnv :=
  { fetchList := fun _ => [], fetchById := fun _ _ => none,
    deleteById := fun _ _ => some false, forgetAddr := fun _ _ => some false }

/-- Witness for C5 (amended), at a concrete adapter environment. -/
theorem facade_guard_spec_witness :
    facadeFetchEmailList envAdapterEmpty { mailbox := none } = .error noMailboxError ∧
    facadeWaitForEmail envAdapterEmpty envQuiet { mailbox := none } "Welcome".data 60
      = .error noMailboxError ∧
    facadeFetchEmailList envAdapterEmpty (mkIntegrationMailbox .DEVELOPER) = .ok [] ∧
    facadeWaitForEmail envAdapterEmpty envQuiet (mkIntegrationMailbox .DEVELOPER)
        "Welcome".data 60
      = .ok (waitForEmail envQuiet "Welcome".data 60) := by
  refine ⟨?_, ?_, ?_, ?_⟩
  · exact (facade_guard_spec.1 envAdapterEmpty envQuiet { mailbox := none }
      [] [] "Welcome".data 60 rfl).1
  · exact (facade_guard_spec.1 envAdapterEmpty envQuiet { mailbox := none }
      [] [] "Welcome".data 60 rfl).2.2.2.2
  · exact (facade_guard_spec.2 envAdapterEmpty envQuiet .DEVELOPER
      [] [] "Welcome".data 60).1
  · exact (facade_guard_spec.2 envAdapterEmpty envQuiet .DEVELOPER
      [] [] "Welcome".data 60).2.2.2.2

/-- Counterexample to C5 as stated: a freshly-constructed facade, on
which `createEmailAddress` has never been called, does not raise the
precondition error — `fetchEmailList` delegates to the adapter installed
by the constructor. -/
theorem facade_guard_counterexample :
    facadeFetchEmailList envAdapterEmpty (mkIntegrationMailbox .DEVELOPER)
      = .ok ([] : List EmailResponse) ∧
    (mkIntegrationMailbox .DEVELOPER).mailbox ≠ none := by
  constructor
  · rfl
  · intro h
    cases h

/-! ## GuerrillaMail adapter (`src/services/guerrillaMailService.ts`)

The axios call made by the `n`-th attempt of `sendRequest` is modelled by
`net n`: either a response carrying `response.data`, or a thrown error
carrying `error.data` (possibly `undefined`). -/

inductive ReqOutcome (α : Type) where
  | success (data : α)
  | failure (errData : Option (List Char))
deriving DecidableEq

def badGatewayMsg : List Char := "502 Bad Gateway".data

structure SendResult (α : Type) where
  response : Option α
  attempts : Nat
  sleptMs : Nat
deriving DecidableEq

/-- Here `sendRequest(payload, isRetry)`: on an error whose `error.data` is
falsy, return `undefined`; on a `502 Bad Gateway` error with
`isRetry < 3`, sleep 3 seconds and recurse with `isRetry + 1`; on any
other error return `undefined`. `attempts` counts the axios calls made
and `sleptMs` the total time slept. The fuel argument only bounds the
recursion; callers keep `isRetry + fuel = 4`, which the `isRetry < 3`
guard makes sufficient. -/
def guerrillaSendRequestGo (net : Nat → ReqOutcome α) :
    Nat → Nat → Nat → SendResult α
  | 0, _, _ => { response := none, attempts := 0, sleptMs := 0 }
  | fuel + 1, isRetry, n =>
    match net n with
    | .success data => { response := some data, attempts := 1, sleptMs := 0 }
    | .failure errData =>
      match errData with
      | none => { response := none, attempts := 1, sleptMs := 0 }
      | some d =>
        if d.isEmpty then { response := none, attempts := 1, sleptMs := 0 }
        else if containsSeq badGatewayMsg d = true ∧ isRetry < 3 then
          let r := guerrillaSendRequestGo net fuel (isRetry + 1) (n + 1)
          { response := r.response, attempts := r.attempts + 1,
            sleptMs := r.sleptMs + 3000 }
        else { response := none, attempts := 1, sleptMs := 0 }

/-- The adapter's `sendRequest(payload)` (so `isRetry = 0`). -/
def guerrillaSendRequest (net : Nat → ReqOutcome α) : SendResult α :=
  guerrillaSendRequestGo net 4 0 0

theorem guerrillaSendRequestGo_spec {α : Type} (net : Nat → ReqOutcome α) :
    ∀ (fuel isRetry n : Nat), 4 ≤ isRetry + fuel → 0 < fuel →
      1 ≤ (guerrillaSendRequestGo net fuel isRetry n).attempts ∧
      (guerrillaSendRequestGo net fuel isRetry n).attempts ≤ fuel ∧
      (guerrillaSendRequestGo net fuel isRetry n).sleptMs
        = 3000 * ((guerrillaSendRequestGo net fuel isRetry n).attempts - 1) ∧
      (1 < (guerrillaSendRequestGo net fuel isRetry n).attempts →
        ∃ s, net n = .failure (some s) ∧ s.isEmpty = false
          ∧ containsSeq badGatewayMsg s = true) := by
  intro fuel
  induction fuel with
  | zero => intro isRetry n _ h; omega
  | succ fuel ih =>
    intro isRetry n hinv _
    cases hnet : net n with
    | success data =>
      refine ⟨?_, ?_, ?_, ?_⟩ <;> simp [guerrillaSendRequestGo, hnet]
    | failure errData =>
      cases errData with
      | none =>
        refine ⟨?_, ?_, ?_, ?_⟩ <;> simp [guerrillaSendRequestGo, hnet]
      | some d =>
        by_cases hde : d.isEmpty = true
        · refine ⟨?_, ?_, ?_, ?_⟩ <;> simp [guerrillaSendRequestGo, hnet, hde]
        · have hde' : d.isEmpty = false := by
            cases h : d.isEmpty
            · rfl
            · exact absurd h hde
          have hdnil : d ≠ [] := by
            cases d
            · simp at hde'
            · simp
          by_cases hc : containsSeq badGatewayMsg d = true ∧ isRetry < 3
          · have hstep : guerrillaSendRequestGo net (fuel + 1) isRetry n
                = { response := (guerrillaSendRequestGo net fuel (isRetry + 1) (n + 1)).response,
                    attempts := (guerrillaSendRequestGo net fuel (isRetry + 1) (n + 1)).attempts + 1,
                    sleptMs := (guerrillaSendRequestGo net fuel (isRetry + 1) (n + 1)).sleptMs + 3000 } := by
              simp [guerrillaSendRequestGo, hnet, hde', hdnil, hc]
            obtain ⟨h1, h2, h3, _⟩ := ih (isRetry + 1) (n + 1) (by omega) (by omega)
            refine ⟨?_, ?_, ?_, ?_⟩
            · rw [hstep]
              show 1 ≤ (guerrillaSendRequestGo net fuel (isRetry + 1) (n + 1)).attempts + 1
              omega
            · rw [hstep]
              show (guerrillaSendRequestGo net fuel (isRetry + 1) (n + 1)).attempts + 1 ≤ fuel + 1
              omega
            · rw [hstep]
              show (guerrillaSendRequestGo net fuel (isRetry + 1) (n + 1)).sleptMs + 3000
                  = 3000 * ((guerrillaSendRequestGo net fuel (isRetry + 1) (n + 1)).attempts + 1 - 1)
              omega
            · exact fun _ => ⟨d, rfl, hde', hc.1⟩
          · refine ⟨?_, ?_, ?_, ?_⟩ <;> simp [guerrillaSendRequestGo, hnet, hde', hdnil, hc]

/-- C6: `sendRequest` makes at most 4 attempts in total (at most 3
retries); it sleeps 3 seconds before each retry and nothing otherwise;
it only ever retries when the first error carries data containing
`502 Bad Gateway`; a success returns the response after one attempt, and
any other failure yields `undefined` immediately after one attempt, with
no exception and no sleep. -/
theorem guerrillaSendRequest_retry_spec {α : Type} (net : Nat → ReqOutcome α) :
    (1 ≤ (guerrillaSendRequest net).attempts
      ∧ (guerrillaSendRequest net).attempts ≤ 4) ∧
    (guerrillaSendRequest net).sleptMs
      = 3000 * ((guerrillaSendRequest net).attempts - 1) ∧
    (1 < (guerrillaSendRequest net).attempts →
      ∃ s, net 0 = .failure (some s) ∧ s.isEmpty = false
        ∧ containsSeq badGatewayMsg s = true) ∧
    (∀ a, net 0 = .success a →
      guerrillaSendRequest net = { response := some a, attempts := 1, sleptMs := 0 }) ∧
    (∀ d, net 0 = .failure d →
      (∀ s, d = some s → s.isEmpty = true ∨ containsSeq badGatewayMsg s = false) →
      guerrillaSendRequest net = { response := none, attempts := 1, sleptMs := 0 }) := by
  obtain ⟨h1, h2, h3, h4⟩ := guerrillaSendRequestGo_spec net 4 0 0 (by omega) (by omega)
  refine ⟨⟨h1, h2⟩, h3, h4, ?_, ?_⟩
  · intro a h
    simp [guerrillaSendRequest, guerrillaSendRequestGo, h]
  · intro d h hother
    cases d with
    | none => simp [guerrillaSendRequest, guerrillaSendRequestGo, h]
    | some s =>
      rcases hother s rfl with hs | hs
      · simp [guerrillaSendRequest, guerrillaSendRequestGo, h, hs]
      · by_cases he : s.isEmpty = true
        · simp [guerrillaSendRequest, guerrillaSendRequestGo, h, he]
        · have he' : s.isEmpty = false := by
            cases hx : s.isEmpty
            · rfl
            · exact absurd hx he
          simp [guerrillaSendRequest, guerrillaSendRequestGo, h, he', hs]

def netBadGateway : Nat → ReqOutcome (List Char) :=
  fun _ => .failure (some ("HTTP 502 Bad Gateway from upstream".data))

def netPlainFailure : Nat → ReqOutcome (List Char) :=
  fun _ => .failure (some "500 Internal Server Error".data)

/-- Witness for C6: a persistent 502 stops after at most 4 attempts with
9 seconds slept in total, and a non-502 failure gives up immediately. -/
theorem guerrillaSendRequest_retry_spec_witness :
    (guerrillaSendRequest netBadGateway).attempts ≤ 4 ∧
    (guerrillaSendRequest netBadGateway).sleptMs
      = 3000 * ((guerrillaSendRequest netBadGateway).attempts - 1) ∧
    guerrillaSendRequest netPlainFailure
      = { response := none, attempts := 1, sleptMs := 0 } := by
  refine ⟨(guerrillaSendRequest_retry_spec netBadGateway).1.2,
    (guerrillaSendRequest_retry_spec netBadGateway).2.1, ?_⟩
  exact (guerrillaSendRequest_retry_spec netPlainFailure).2.2.2.2
    (some "500 Internal Server Error".data) rfl
    (fun s hs => by cases hs; exact Or.inr (by decide))

/-- Here `response.data` of a `get_email_list` call. -/
structure EmailListResponse where
  list : List EmailResponse
deriving DecidableEq

/-- Guerrilla `fetchEmailList`: `[]` when `sendRequest` yields no
response, otherwise the `list` field of the response data. -/
def guerrillaFetchEmailList (net : Nat → ReqOutcome EmailListResponse) :
    List EmailResponse :=
  match (guerrillaSendRequest net).response with
  | none => []
  | some emailListResponse => emailListResponse.list

def isFailureOutcome : ReqOutcome α → Bool
  | .success _ => false
  | .failure _ => true

theorem guerrillaSendRequestGo_all_failure {α : Type} (net : Nat → ReqOutcome α)
    (hall : ∀ k, isFailureOutcome (net k) = true) :
    ∀ (fuel isRetry n : Nat),
      (guerrillaSendRequestGo net fuel isRetry n).response = none := by
  intro fuel
  induction fuel with
  | zero => intro isRetry n; rfl
  | succ fuel ih =>
    intro isRetry n
    cases hnet : net n with
    | success data =>
      have := hall n
      rw [hnet] at this
      cases this
    | failure errData =>
      cases errData with
      | none => simp [guerrillaSendRequestGo, hnet]
      | some d =>
        by_cases hde : d.isEmpty = true
        · simp [guerrillaSendRequestGo, hnet, hde]
        · have hde' : d.isEmpty = false := by
            cases h : d.isEmpty
            · rfl
            · exact absurd h hde
          have hdnil : d ≠ [] := by
            cases d
            · simp at hde'
            · simp
          by_cases hc : containsSeq badGatewayMsg d = true ∧ isRetry < 3
          · simp [guerrillaSendRequestGo, hnet, hde', hdnil, hc, ih]
          · simp [guerrillaSendRequestGo, hnet, hde', hdnil, hc]

/-! ## DeveloperMail adapter (`src/services/developerMailService.ts`) -/

/-- DeveloperMail `sendRequest`: any axios error is swallowed and yields
`undefined`; there is no retry. -/
def devSendRequest : ReqOutcome α → Option α
  | .success data => some data
  | .failure _ => none

/-- The record built by DeveloperMail's `fetchEmailList` parsing; fields
read out of `split(...)` results may be JS-`undefined`. -/
structure DevEmail where
  mail_id : List Char
  mail_from : Option (List Char)
  mail_timestamp : Option (List Char)
  mail_subject : Option (List Char)
  mail_excerpt : List Char
  mail_body : Option (List Char)
deriving DecidableEq

/-- JS array indexing: out-of-range reads give `undefined`. -/
def jsAt (l : List (List Char)) (i : Nat) : Option (List Char) :=
  l.get? i

def crlf : List Char := "\r\n".data

/-- The per-message MIME parsing inside `fetchEmailList`:
`message.value.split('\r\n')`, then `[1]`, `[3]`, `[4]`, `[6]` are
split again on the header labels. Reading `.split` off an `undefined`
line throws a `TypeError`, modelled as `Except.error`. -/
def devParseMessage (key value : List Char) : Except Unit DevEmail :=
  let splitResponse := jsSplit crlf value
  match jsAt splitResponse 1, jsAt splitResponse 3,
      jsAt splitResponse 4, jsAt splitResponse 6 with
  | some l1, some l3, some l4, some l6 =>
    .ok { mail_id := key,
          mail_from := jsAt (jsSplit "From: ".data l1) 1,
          mail_timestamp := jsAt (jsSplit "Date: ".data l3) 1,
          mail_subject := jsAt (jsSplit "Subject: ".data l4) 1,
          mail_excerpt := [],
          mail_body := jsAt (jsSplit "Content-Transfer-Encoding: ".data l6) 1 }
  | _, _, _, _ => .error ()

/-- Here `messages.result.forEach(...)`, pushing each parsed email; a thrown
`TypeError` aborts the whole call. -/
def devParseAll : List (List Char × List Char) → Except Unit (List DevEmail)
  | [] => .ok []
  | (key, value) :: rest =>
    match devParseMessage key value with
    | .error e => .error e
    | .ok email =>
      match devParseAll rest with
      | .error e => .error e
      | .ok emails => .ok (email :: emails)

/-- Outcomes of the two requests issued by DeveloperMail
`fetchEmailList`: the message-id listing and the message fetch. -/
structure DevListEnv where
  idsResp : ReqOutcome (List (List Char))
  messagesResp : ReqOutcome (List (List Char × List Char))

def developerFetchEmailList (env : DevListEnv) : Except Unit (List DevEmail) :=
  match devSendRequest env.idsResp with
  | none => .ok []
  | some _messageIds =>
    match devSendRequest env.messagesResp with
    | none => .ok []
    | some messages => devParseAll messages

/-- C7: both adapters' `fetchEmailList` return an empty list — never a
raised error — whenever the underlying request yields no response; in
particular Guerrilla returns `[]` when every network attempt fails. -/
theorem fetchEmailList_empty_on_no_response :
    (∀ net : Nat → ReqOutcome EmailListResponse,
      (guerrillaSendRequest net).response = none →
      guerrillaFetchEmailList net = []) ∧
    (∀ net : Nat → ReqOutcome EmailListResponse,
      (∀ k, isFailureOutcome (net k) = true) →
      guerrillaFetchEmailList net = []) ∧
    (∀ env : DevListEnv, devSendRequest env.idsResp = none →
      developerFetchEmailList env = .ok []) ∧
    (∀ env : DevListEnv, devSendRequest env.messagesResp = none →
      developerFetchEmailList env = .ok []) := by
  refine ⟨?_, ?_, ?_, ?_⟩
  · intro net h
    simp [guerrillaFetchEmailList, h]
  · intro net h
    simp [guerrillaFetchEmailList, guerrillaSendRequest,
      guerrillaSendRequestGo_all_failure net h]
  · intro env h
    simp [developerFetchEmailList, h]
  · intro env h
    unfold developerFetchEmailList
    cases hids : devSendRequest env.idsResp with
    | none => rfl
    | some ids => rw [h]

def netListFailure : Nat → ReqOutcome EmailListResponse :=
  fun _ => .failure none

def envDevListFailure : DevListEnv :=
  { idsResp := .failure (some "timeout".data),
    messagesResp := .failure none }

/-- Witness for C7 at concrete failing environments. -/
theorem fetchEmailList_empty_on_no_response_witness :
    guerrillaFetchEmailList netListFailure = [] ∧
    developerFetchEmailList envDevListFailure = .ok [] := by
  constructor
  · exact fetchEmailList_empty_on_no_response.2.1 netListFailure (fun k => rfl)
  · exact fetchEmailList_empty_on_no_response.2.2.1 envDevListFailure rfl

/-! ## C8: `deleteEmailById` -/

/-- Guerrilla `deleteEmailById`: `undefined` when no response, else the
`!!responseData` truthiness of the response body (the code's own comment
says the API returns an empty string as body on success). -/
def guerrillaDeleteEmailById (net : Nat → ReqOutcome (List Char)) : Option Bool :=
  match (guerrillaSendRequest net).response with
  | none => none
  | some responseData => some (!responseData.isEmpty)

/-- DeveloperMail `deleteEmailById`: `false` when no response, else the
upstream `response.data.result` boolean. -/
def developerDeleteEmailById (resp : ReqOutcome Bool) : Option Bool :=
  match devSendRequest resp with
  | none => some false
  | some result => some result

/-- C8 evidence: Guerrilla's `deleteEmailById` returns `undefined` (not
`false`) when the request yields no response, and returns `false` on the
success body its own comment documents (an empty string) while returning
`true` on a non-empty (non-confirming) body; DeveloperMail conforms. -/
theorem deleteEmailById_bug_evidence :
    guerrillaDeleteEmailById (fun _ => .failure none) = none ∧
    guerrillaDeleteEmailById (fun _ => .success []) = some false ∧
    guerrillaDeleteEmailById (fun _ => .success "error page".data) = some true ∧
    developerDeleteEmailById (.failure none) = some false ∧
    developerDeleteEmailById (.success true) = some true ∧
    developerDeleteEmailById (.success false) = some false := by
  decide

/-! ## C9: `createEmailAddress` of the two adapters -/

/-- Here `response.data` of Guerrilla's `get_email_address`. -/
structure CreateEmailResponse where
  email_addr : List Char
  email_timestamp : Nat
  «alias» : List Char
  sid_token : List Char
deriving DecidableEq

/-- Guerrilla adapter session state (`this.sidToken`). -/
structure GuerrillaState where
  sidToken : List Char
deriving DecidableEq

/-- Guerrilla `createEmailAddress`: store `sid_token` and return the
upstream `email_addr` verbatim. -/
def guerrillaCreateEmailAddress (net : Nat → ReqOutcome CreateEmailResponse)
    (st : GuerrillaState) : Option (List Char) × GuerrillaState :=
  match (guerrillaSendRequest net).response with
  | none => (none, st)
  | some creationResponse =>
      (some creationResponse.email_addr, { sidToken := creationResponse.sid_token })

/-- Here `response.data.result` of DeveloperMail's `PUT /mailbox`. -/
structure DevCreateResponse where
  name : List Char
  token : List Char
deriving DecidableEq

/-- DeveloperMail adapter session state (`this.token`, `this.mailboxName`). -/
structure DevState where
  token : List Char
  mailboxName : List Char
deriving DecidableEq

def EMAIL_DOMAIN : List Char := "developermail.com".data

/-- DeveloperMail `createEmailAddress`: store token and mailbox name,
and return the composed `name@developermail.com`. -/
def developerCreateEmailAddress (resp : ReqOutcome DevCreateResponse)
    (st : DevState) : Option (List Char) × DevState :=
  match devSendRequest resp with
  | none => (none, st)
  | some creationResponse =>
      (some (creationResponse.name ++ ('@' :: EMAIL_DOMAIN)),
       { token := creationResponse.token, mailboxName := creationResponse.name })

/-- C9 (amended): DeveloperMail's `createEmailAddress` composes
`name@developermail.com` — which always contains `'@'` — and stores the
session token and mailbox name before returning; Guerrilla's returns the
upstream-provided `email_addr` verbatim (so it contains `'@'` exactly
when the upstream address does) and stores `sid_token` before
returning. -/
theorem createEmailAddress_address_spec :
    (∀ (resp : ReqOutcome DevCreateResponse) (st : DevState) (r : DevCreateResponse),
      devSendRequest resp = some r →
      developerCreateEmailAddress resp st
        = (some (r.name ++ ('@' :: EMAIL_DOMAIN)),
           { token := r.token, mailboxName := r.name }) ∧
      ('@' : Char) ∈ r.name ++ ('@' :: EMAIL_DOMAIN)) ∧
    (∀ (net : Nat → ReqOutcome CreateEmailResponse) (st : GuerrillaState)
        (r : CreateEmailResponse),
      (guerrillaSendRequest net).response = some r →
      guerrillaCreateEmailAddress net st
        = (some r.email_addr, { sidToken := r.sid_token })) := by
  constructor
  · intro resp st r h
    constructor
    · simp [developerCreateEmailAddress, h]
    · exact List.mem_append_right _ (List.mem_cons_self _ _)
  · intro net st r h
    simp [guerrillaCreateEmailAddress, h]

def respDevOk : ReqOutcome DevCreateResponse :=
  .success { name := "happy".data, token := "tok".data }

/-- Witness for C9 (amended) at a concrete successful response. -/
theorem createEmailAddress_address_spec_witness :
    developerCreateEmailAddress respDevOk { token := [], mailboxName := [] }
      = (some ("happy".data ++ ('@' :: EMAIL_DOMAIN)),
         { token := "tok".data, mailboxName := "happy".data }) ∧
    ('@' : Char) ∈ "happy".data ++ ('@' :: EMAIL_DOMAIN) :=
  createEmailAddress_address_spec.1 respDevOk { token := [], mailboxName := [] }
    { name := "happy".data, token := "tok".data } rfl

def netNoAt : Nat → ReqOutcome CreateEmailResponse :=
  fun _ => .success { email_addr := "inbox".data, email_timestamp := 0,
                      «alias» := [], sid_token := "tok".data }

/-- Counterexample to C9 as stated: Guerrilla's adapter succeeds while
returning an upstream address with no `'@'` in it. -/
theorem guerrillaCreateEmailAddress_no_at_counterexample :
    (guerrillaCreateEmailAddress netNoAt { sidToken := [] }).1
      = some "inbox".data ∧
    ('@' : Char) ∉ "inbox".data := by
  decide
